import Mathlib

/-!
Shallow embedding of the end-of-day backtesting engine
(`src/backtester.py`, `src/metrics.py` of the `eod-backtest` repository).

Modelling conventions:
* Prices and monetary amounts are rationals (`ℚ`); Python floats are
  modelled exactly, `NaN` entries of the ATR series become `Option.none`.
* The price index is assumed sorted with strictly increasing dates
  (the engine calls `df.sort_index()` and the data model requires a
  strictly increasing, duplicate-free date index), so trading dates are
  identified with bar positions `0, 1, ..., n-1`; "date d strictly
  follows date e" is `e < d` on positions.
* The indicator computations (`ema`, `rsi`, `atr` from the `indicators`
  module) are not part of the engine loop: `_run_single_symbol`
  precomputes `entry_signal`, `trend_flip` and the ATR series and then
  only reads them.  `MarketData` therefore carries these precomputed
  series as data; theorems quantify over all such series, which covers
  every series the precomputation can produce.
-/

namespace EodBacktest

/-- The exit reasons recorded by `_run_single_symbol`
(strings "Stoploss", "TimeExit", "TrendFlip", "ATR_Trail"). -/
inductive ExitReason where
  | Stoploss
  | TimeExit
  | TrendFlip
  | ATR_Trail
deriving DecidableEq, Repr

/-- The exit configuration keys read by `_run_single_symbol`
(`exit_cfg` in `src/backtester.py`). -/
structure ExitCfg where
  stoploss : Bool
  stoploss_pct : ℚ
  time_exit : Bool
  time_exit_k : ℤ
  exit_on_trend_flip : Bool
  atr_trailing : Bool
  atr_mult : ℚ
deriving Repr

/-- The simulation configuration keys read by `_run_single_symbol`
(`sim_cfg` in `src/backtester.py`). -/
structure SimCfg where
  capital_per_trade : ℚ
  slippage_bps : ℚ
  brokerage_per_order : ℚ
  max_parallel : ℕ
deriving Repr

/-- An open position as stored in the `open_positions` list
(`src/backtester.py:186-191`): entry date (as bar position),
entry fill price, quantity, and the highest close seen so far. -/
structure Position where
  entryIdx : ℕ
  entryPrice : ℚ
  qty : ℚ
  highestClose : ℚ
deriving DecidableEq, Repr

/-- A closed trade record as appended to `trades`
(`src/backtester.py:160-171`); dates are bar positions. -/
structure Trade where
  symbol : String
  entryIdx : ℕ
  exitIdx : ℕ
  entryPrice : ℚ
  exitPrice : ℚ
  qty : ℚ
  grossPnL : ℚ
  cost : ℚ
  netPnL : ℚ
  exitReason : ExitReason
deriving DecidableEq, Repr

/-- One instrument's input to the engine loop: the number of bars `n`,
the `Open` and `Close` columns by bar position, and the series
precomputed by `_apply_entry_rules` / `_apply_exit_rules`
(`entry_signal`, `trend_flip`, ATR; a `NaN` ATR entry is `none`). -/
structure MarketData where
  n : ℕ
  openAt : ℕ → ℚ
  closeAt : ℕ → ℚ
  entrySig : ℕ → Bool
  trendFlip : ℕ → Bool
  atrAt : ℕ → Option ℚ

/-- `slip` from `src/backtester.py:95-96`: `price * (slippage_bps / 10000)`. -/
def slip (scfg : SimCfg) (price : ℚ) : ℚ :=
  price * (scfg.slippage_bps / 10000)

/-- The stoploss condition of `src/backtester.py:117-121`:
enabled and `Close[t] <= entry_price * (1 - stoploss_pct/100)`. -/
def stoplossHit (ecfg : ExitCfg) (entryPrice close : ℚ) : Bool :=
  ecfg.stoploss && decide (close ≤ entryPrice * (1 - ecfg.stoploss_pct / 100))

/-- The time-exit condition of `src/backtester.py:124-129`:
enabled and `bars_held >= time_exit_k`. -/
def timeExitHit (ecfg : ExitCfg) (barsHeld : ℤ) : Bool :=
  ecfg.time_exit && decide (barsHeld ≥ ecfg.time_exit_k)

/-- The trend-flip condition of `src/backtester.py:132-136`:
enabled and the precomputed `trend_flip` series is true at `t`. -/
def trendFlipHit (ecfg : ExitCfg) (tf : Bool) : Bool :=
  ecfg.exit_on_trend_flip && tf

/-- The trailing-stop level computed at `src/backtester.py:145`:
`HighestClose - atr_mult * ATR[t]`. -/
def trailLevel (atrMult hc atrVal : ℚ) : ℚ :=
  hc - atrMult * atrVal

/-- The value `trail` of `src/backtester.py:144-145` for a position at a
bar with close `close` and ATR value `av`: `HighestClose` is first
updated to `max(HighestClose, close)`, then the level is
`HighestClose - atr_mult * av`. -/
def trailAtBar (ecfg : ExitCfg) (close av : ℚ) (pos : Position) : ℚ :=
  trailLevel ecfg.atr_mult (max pos.highestClose close) av

/-- The ATR-trailing condition of `src/backtester.py:139-148`:
enabled, ATR defined at `t`, and `Close[t] <= trail`. -/
def atrTrailHit (ecfg : ExitCfg) (atrOpt : Option ℚ) (close : ℚ) (pos : Position) : Bool :=
  ecfg.atr_trailing &&
    match atrOpt with
    | some av => decide (close ≤ trailAtBar ecfg close av pos)
    | none => false

/-- The exit evaluation of `src/backtester.py:113-148` for one open
position at bar `i`: conditions are checked in source order
(stoploss, time exit, trend flip, ATR trail), the first that fires
wins; the ATR branch also updates `HighestClose` in place. -/
def evalExit (ecfg : ExitCfg) (tf : Bool) (atrOpt : Option ℚ) (i : ℕ) (close : ℚ)
    (pos : Position) : Option ExitReason × Position :=
  if stoplossHit ecfg pos.entryPrice close then
    (some .Stoploss, pos)
  else if timeExitHit ecfg ((i : ℤ) - (pos.entryIdx : ℤ)) then
    (some .TimeExit, pos)
  else if trendFlipHit ecfg tf then
    (some .TrendFlip, pos)
  else if ecfg.atr_trailing then
    match atrOpt with
    | some av =>
        let pos' : Position := { pos with highestClose := max pos.highestClose close }
        if close ≤ trailAtBar ecfg close av pos then (some .ATR_Trail, pos')
        else (none, pos')
    | none => (none, pos)
  else
    (none, pos)

/-- The trade record built at `src/backtester.py:150-171` when a
position exits at bar `i`: the exit fills at the next bar's open minus
slippage, cost is `brokerage_per_order * 2`, net P&L is gross minus
cost. -/
def mkTrade (sym : String) (scfg : SimCfg) (md : MarketData) (i : ℕ) (pos : Position)
    (reason : ExitReason) : Trade :=
  let exitRaw := md.openAt (i + 1)
  let exitPx := exitRaw - slip scfg exitRaw
  let gross := (exitPx - pos.entryPrice) * pos.qty
  let cost := scfg.brokerage_per_order * 2
  { symbol := sym
    entryIdx := pos.entryIdx
    exitIdx := i + 1
    entryPrice := pos.entryPrice
    exitPrice := exitPx
    qty := pos.qty
    grossPnL := gross
    cost := cost
    netPnL := gross - cost
    exitReason := reason }

/-- The loop state of `_run_single_symbol`: the `open_positions` list
and the accumulated `trades` list. -/
structure SimState where
  openPositions : List Position
  trades : List Trade
deriving DecidableEq, Repr

/-- The fold step over one open position inside the exit-management
loop of `src/backtester.py:104-173`: an exiting position contributes a
trade record, a surviving one is kept (with its possibly updated
`HighestClose`). -/
def exitFoldStep (sym : String) (ecfg : ExitCfg) (scfg : SimCfg) (md : MarketData) (i : ℕ)
    (acc : List Position × List Trade) (pos : Position) : List Position × List Trade :=
  match evalExit ecfg (md.trendFlip i) (md.atrAt i) i (md.closeAt i) pos with
  | (some reason, _) => (acc.1, acc.2 ++ [mkTrade sym scfg md i pos reason])
  | (none, pos') => (acc.1 ++ [pos'], acc.2)

/-- The exit-management pass of `src/backtester.py:103-175` at bar `i`. -/
def manageExits (sym : String) (ecfg : ExitCfg) (scfg : SimCfg) (md : MarketData) (i : ℕ)
    (st : SimState) : SimState :=
  let folded := st.openPositions.foldl (exitFoldStep sym ecfg scfg md i) ([], [])
  { openPositions := folded.1, trades := st.trades ++ folded.2 }

/-- The entry step of `src/backtester.py:177-191` at bar `i`: if the
entry signal is true and fewer than `max_parallel` positions are open,
enter at the next bar's open plus slippage with fixed-notional
sizing. -/
def tryEntry (scfg : SimCfg) (md : MarketData) (i : ℕ) (st : SimState) : SimState :=
  if md.entrySig i ∧ st.openPositions.length < scfg.max_parallel then
    let raw := md.openAt (i + 1)
    let px := raw + slip scfg raw
    let qty := scfg.capital_per_trade / px
    { st with
        openPositions := st.openPositions ++
          [{ entryIdx := i + 1, entryPrice := px, qty := qty, highestClose := px }] }
  else
    st

/-- One iteration of the main loop of `_run_single_symbol`
(`src/backtester.py:100-191`): exits are managed first, then entries. -/
def stepBar (sym : String) (ecfg : ExitCfg) (scfg : SimCfg) (md : MarketData) (i : ℕ)
    (st : SimState) : SimState :=
  tryEntry scfg md i (manageExits sym ecfg scfg md i st)

/-- Runs `fuel` consecutive iterations of the main loop starting at bar
position `i`. -/
def runAux (sym : String) (ecfg : ExitCfg) (scfg : SimCfg) (md : MarketData) :
    ℕ → ℕ → SimState → SimState
  | 0, _, st => st
  | fuel + 1, i, st =>
      runAux sym ecfg scfg md fuel (i + 1) (stepBar sym ecfg scfg md i st)

/-- The initial loop state (`trades = []`, `open_positions = []`,
`src/backtester.py:91-92`). -/
def initState : SimState := ⟨[], []⟩

/-- `_run_single_symbol` (`src/backtester.py:72-193`): the loop runs
`for i in range(1, len(idx) - 1)`, i.e. `n - 2` iterations starting at
bar 1; the Python function returns the trades, the final open
positions are internal state. -/
def runSingleSymbol (sym : String) (ecfg : ExitCfg) (scfg : SimCfg) (md : MarketData) :
    SimState :=
  runAux sym ecfg scfg md (md.n - 2) 1 initState

/-- The loop state of `_run_single_symbol` after its first `t`
iterations (after all of them when `t` exceeds the iteration count
`n - 2`). -/
def stateAfter (sym : String) (ecfg : ExitCfg) (scfg : SimCfg) (md : MarketData) (t : ℕ) :
    SimState :=
  runAux sym ecfg scfg md (min t (md.n - 2)) 1 initState

/-- `run_backtest` on a multi-symbol dict (`src/backtester.py:207-216`):
each symbol is simulated independently and the per-symbol trade lists
are concatenated in input order. -/
def run_backtest (univ : List (String × MarketData)) (ecfg : ExitCfg) (scfg : SimCfg) :
    List Trade :=
  (univ.map fun p => (runSingleSymbol p.1 ecfg scfg p.2).trades).flatten

/-- The number of positions open across all instruments after `t` loop
iterations: the sum over the universe of each instrument's open-position
count at that point. -/
def totalOpenAfter (univ : List (String × MarketData)) (ecfg : ExitCfg) (scfg : SimCfg)
    (t : ℕ) : ℕ :=
  (univ.map fun p => (stateAfter p.1 ecfg scfg p.2 t).openPositions.length).sum

/-- The first exit reason, in the order the source checks them
(stoploss, time exit, trend flip, ATR trail), whose condition holds;
written from that order so the engine's evaluation can be compared
against it as a whole. -/
def firstMatchingReason (sl tm tf atrT : Bool) : Option ExitReason :=
  if sl then some .Stoploss
  else if tm then some .TimeExit
  else if tf then some .TrendFlip
  else if atrT then some .ATR_Trail
  else none

/-- Well-formedness of an open position entered by the loop up to bar
`bound`: its entry date is at most `bound` and its entry price is the
raw open at the entry bar plus slippage (`src/backtester.py:180-191`). -/
def PosWf (scfg : SimCfg) (md : MarketData) (bound : ℕ) (p : Position) : Prop :=
  p.entryIdx ≤ bound ∧
  p.entryPrice = md.openAt p.entryIdx + slip scfg (md.openAt p.entryIdx)

/-- Well-formedness of a closed trade record
(`src/backtester.py:150-171`): the exit date strictly follows the entry
date, both fills carry the slippage adjustment relative to the raw open
of their fill bar, the cost is two brokerage charges, and net P&L is
gross P&L minus cost. -/
def TradeWf (scfg : SimCfg) (md : MarketData) (t : Trade) : Prop :=
  t.entryIdx < t.exitIdx ∧
  t.entryPrice = md.openAt t.entryIdx + slip scfg (md.openAt t.entryIdx) ∧
  t.exitPrice = md.openAt t.exitIdx - slip scfg (md.openAt t.exitIdx) ∧
  t.cost = scfg.brokerage_per_order * 2 ∧
  t.netPnL = t.grossPnL - t.cost

/-- Insertion step for ordering trades by exit date, modelling
`df.sort_values("ExitDate")` in `compute_equity_curve`
(`src/metrics.py:40`). -/
def insertByExitIdx (t : Trade) : List Trade → List Trade
  | [] => [t]
  | u :: rest => if t.exitIdx < u.exitIdx then t :: u :: rest else u :: insertByExitIdx t rest

/-- Trades ordered by exit date (`src/metrics.py:40`). -/
def sortByExitIdx (l : List Trade) : List Trade :=
  l.foldr insertByExitIdx []

/-- `compute_equity_curve` (`src/metrics.py:11-50`): cumulative sum of
net P&L over the exit-date-ordered trades, on top of the initial
capital, indexed by exit date.  (The empty-ledger sentinel row — a
single constant initial-capital point at a fixed placeholder date — is
represented by the empty list here; it carries no trade data.) -/
def equityCurve (trades : List Trade) (initial : ℚ) : List (ℕ × ℚ) :=
  ((sortByExitIdx trades).foldl
    (fun (acc : ℚ × List (ℕ × ℚ)) t =>
      (acc.1 + t.netPnL, acc.2 ++ [(t.exitIdx, acc.1 + t.netPnL)]))
    (initial, [])).2

/-- `gross_profit` of `src/metrics.py:142-148`: the sum of strictly
positive P&L values (the `len(wins) > 0` guard is redundant since an
empty sum is `0.0`). -/
def grossProfit (pnls : List ℚ) : ℚ :=
  (pnls.filter fun x => decide (0 < x)).sum

/-- `gross_loss` of `src/metrics.py:143-149`: minus the sum of strictly
negative P&L values (the `len(losses) > 0` guard is redundant since an
empty sum is `0.0`). -/
def grossLoss (pnls : List ℚ) : ℚ :=
  -((pnls.filter fun x => decide (x < 0)).sum)

/-- `profit_factor` of `src/metrics.py:151`: `gross_profit/gross_loss`
when `gross_loss > 0` (the `_safe_div` zero-divisor guard cannot fire
on that branch), otherwise the cap sentinel `999.0` when
`gross_profit > 0`, and `0.0` when there are no wins either.  The
metrics dict stores this value rounded to 4 decimals
(`src/metrics.py:169`), which is the identity on the values at issue
here. -/
def profitFactor (pnls : List ℚ) : ℚ :=
  if grossLoss pnls > 0 then grossProfit pnls / grossLoss pnls
  else if grossProfit pnls > 0 then 999 else 0

/-! Concrete instruments and configurations used to instantiate the
theorems below on executable inputs. -/

/-- A 3-bar instrument whose entry signal fires once at bar 1 and whose
exit helper series never fire: the entered position is held to the end. -/
def mdHold : MarketData :=
  { n := 3
    openAt := fun _ => 100
    closeAt := fun _ => 100
    entrySig := fun i => i == 1
    trendFlip := fun _ => false
    atrAt := fun _ => none }

/-- A 4-bar instrument whose entry signal is always true and whose exit
helper series never fire. -/
def mdHold4 : MarketData :=
  { n := 4
    openAt := fun _ => 100
    closeAt := fun _ => 100
    entrySig := fun _ => true
    trendFlip := fun _ => false
    atrAt := fun _ => none }

/-- An exit configuration with every exit condition disabled. -/
def ecfgOff : ExitCfg :=
  { stoploss := false, stoploss_pct := 2, time_exit := false, time_exit_k := 15
    exit_on_trend_flip := false, atr_trailing := false, atr_mult := 3 }

/-- An exit configuration enabling the time exit with `K = 0` and the
trend-flip exit, so both conditions can hold on the same bar. -/
def ecfgTimeTF : ExitCfg :=
  { stoploss := false, stoploss_pct := 2, time_exit := true, time_exit_k := 0
    exit_on_trend_flip := true, atr_trailing := false, atr_mult := 3 }

/-- An exit configuration enabling only the time exit with `K = 0`. -/
def ecfgTime : ExitCfg :=
  { stoploss := false, stoploss_pct := 2, time_exit := true, time_exit_k := 0
    exit_on_trend_flip := false, atr_trailing := false, atr_mult := 3 }

/-- An exit configuration enabling only ATR trailing with multiple 3. -/
def ecfgAtr : ExitCfg :=
  { stoploss := false, stoploss_pct := 2, time_exit := false, time_exit_k := 15
    exit_on_trend_flip := false, atr_trailing := true, atr_mult := 3 }

/-- Frictionless sizing with a single parallel slot. -/
def scfgOne : SimCfg :=
  { capital_per_trade := 100, slippage_bps := 0, brokerage_per_order := 0, max_parallel := 1 }

/-- Frictionless sizing with two parallel slots. -/
def scfgTwo : SimCfg :=
  { capital_per_trade := 100, slippage_bps := 0, brokerage_per_order := 0, max_parallel := 2 }

/-- A 4-bar instrument: entry signal at bar 1 only, trend-flip helper
true at bar 2, so the time exit (`K = 0`) and the trend flip both hold
at bar 2 for the position entered at bar 2. -/
def mdTimeTF : MarketData :=
  { n := 4
    openAt := fun _ => 100
    closeAt := fun _ => 100
    entrySig := fun i => i == 1
    trendFlip := fun i => i == 2
    atrAt := fun _ => none }

/-- A 4-bar instrument with entry signal at bar 1 only and no helper
series firing; with `ecfgTime` the resulting position exits at bar 3. -/
def mdRun4 : MarketData :=
  { n := 4
    openAt := fun _ => 100
    closeAt := fun _ => 100
    entrySig := fun i => i == 1
    trendFlip := fun _ => false
    atrAt := fun _ => none }

/-- The single trade produced by `ecfgTime`/`scfgOne` on `mdRun4`:
entered at bar 2, time-exited at bar 3, at price 100 with no
frictions. -/
def tradeRun4 : Trade :=
  { symbol := "A", entryIdx := 2, exitIdx := 3, entryPrice := 100, exitPrice := 100
    qty := 1, grossPnL := 0, cost := 0, netPnL := 0, exitReason := .TimeExit }

/-- A position entered at bar 1 at price 100 with highest close 100. -/
def posAtr : Position :=
  { entryIdx := 1, entryPrice := 100, qty := 1, highestClose := 100 }

/-- A 3-bar instrument whose only true entry signal is on the last bar
(bar 2). -/
def mdLastSig : MarketData :=
  { n := 3
    openAt := fun _ => 100
    closeAt := fun _ => 100
    entrySig := fun i => i == 2
    trendFlip := fun _ => false
    atrAt := fun _ => none }

/-- `mdLastSig` with the last-bar entry signal cleared. -/
def mdNoSig : MarketData :=
  { n := 3
    openAt := fun _ => 100
    closeAt := fun _ => 100
    entrySig := fun _ => false
    trendFlip := fun _ => false
    atrAt := fun _ => none }

/-- A 2-bar instrument whose entry signal is true on the first bar. -/
def mdTwoBars : MarketData :=
  { n := 2
    openAt := fun _ => 100
    closeAt := fun _ => 100
    entrySig := fun i => i == 0
    trendFlip := fun _ => false
    atrAt := fun _ => none }

/-- `mdTwoBars` with the first-bar entry signal cleared. -/
def mdTwoBarsNoSig : MarketData :=
  { n := 2
    openAt := fun _ => 100
    closeAt := fun _ => 100
    entrySig := fun _ => false
    trendFlip := fun _ => false
    atrAt := fun _ => none }

/-! ## Helper lemmas -/

theorem exitFoldStep_fst_length (sym : String) (ecfg : ExitCfg) (scfg : SimCfg)
    (md : MarketData) (i : ℕ) (acc : List Position × List Trade) (pos : Position) :
    (exitFoldStep sym ecfg scfg md i acc pos).1.length ≤ acc.1.length + 1 := by
  unfold exitFoldStep
  rcases h : evalExit ecfg (md.trendFlip i) (md.atrAt i) i (md.closeAt i) pos with ⟨_ | r, p⟩ <;>
    simp [h]

theorem exitFold_length (sym : String) (ecfg : ExitCfg) (scfg : SimCfg) (md : MarketData)
    (i : ℕ) :
    ∀ (l : List Position) (acc : List Position × List Trade),
      ((l.foldl (exitFoldStep sym ecfg scfg md i) acc).1).length ≤ acc.1.length + l.length := by
  intro l
  induction l with
  | nil => intro acc; simp
  | cons hd tl ih =>
      intro acc
      have h1 := exitFoldStep_fst_length sym ecfg scfg md i acc hd
      have h2 := ih (exitFoldStep sym ecfg scfg md i acc hd)
      simp only [List.foldl_cons, List.length_cons]
      omega

theorem manageExits_length (sym : String) (ecfg : ExitCfg) (scfg : SimCfg) (md : MarketData)
    (i : ℕ) (st : SimState) :
    (manageExits sym ecfg scfg md i st).openPositions.length ≤ st.openPositions.length := by
  have h := exitFold_length sym ecfg scfg md i st.openPositions ([], [])
  simpa [manageExits] using h

theorem tryEntry_cap (scfg : SimCfg) (md : MarketData) (i : ℕ) (st : SimState)
    (h : st.openPositions.length ≤ scfg.max_parallel) :
    (tryEntry scfg md i st).openPositions.length ≤ scfg.max_parallel := by
  unfold tryEntry
  split_ifs with hc
  · rcases hc with ⟨-, hlt⟩
    simp only [List.length_append, List.length_singleton]
    omega
  · exact h

theorem stepBar_cap (sym : String) (ecfg : ExitCfg) (scfg : SimCfg) (md : MarketData)
    (i : ℕ) (st : SimState) (h : st.openPositions.length ≤ scfg.max_parallel) :
    (stepBar sym ecfg scfg md i st).openPositions.length ≤ scfg.max_parallel :=
  tryEntry_cap scfg md i _ (le_trans (manageExits_length sym ecfg scfg md i st) h)

theorem runAux_cap (sym : String) (ecfg : ExitCfg) (scfg : SimCfg) (md : MarketData) :
    ∀ (fuel i : ℕ) (st : SimState),
      st.openPositions.length ≤ scfg.max_parallel →
      (runAux sym ecfg scfg md fuel i st).openPositions.length ≤ scfg.max_parallel := by
  intro fuel
  induction fuel with
  | zero => intro i st h; simpa [runAux] using h
  | succ f ih =>
      intro i st h
      exact ih (i + 1) _ (stepBar_cap sym ecfg scfg md i st h)

theorem stateAfter_cap (sym : String) (ecfg : ExitCfg) (scfg : SimCfg) (md : MarketData)
    (t : ℕ) :
    (stateAfter sym ecfg scfg md t).openPositions.length ≤ scfg.max_parallel :=
  runAux_cap sym ecfg scfg md (min t (md.n - 2)) 1 initState (by simp [initState])

theorem evalExit_none_atr (ecfg : ExitCfg) (tf : Bool) (av : ℚ) (i : ℕ) (close : ℚ)
    (pos pos' : Position) (hat : ecfg.atr_trailing = true)
    (h : evalExit ecfg tf (some av) i close pos = (none, pos')) :
    pos' = { pos with highestClose := max pos.highestClose close } := by
  simp only [evalExit] at h
  split_ifs at h <;> simp_all

theorem PosWf_mono (scfg : SimCfg) (md : MarketData) (b b' : ℕ) (p : Position)
    (hb : b ≤ b') (h : PosWf scfg md b p) : PosWf scfg md b' p :=
  ⟨le_trans h.1 hb, h.2⟩

theorem evalExit_snd_entry (ecfg : ExitCfg) (tf : Bool) (atrOpt : Option ℚ) (i : ℕ)
    (close : ℚ) (pos : Position) :
    ((evalExit ecfg tf atrOpt i close pos).2).entryIdx = pos.entryIdx ∧
    ((evalExit ecfg tf atrOpt i close pos).2).entryPrice = pos.entryPrice := by
  cases atrOpt <;> simp only [evalExit] <;> split_ifs <;> simp

theorem mkTrade_wf (sym : String) (scfg : SimCfg) (md : MarketData) (i : ℕ) (pos : Position)
    (reason : ExitReason) (h : PosWf scfg md i pos) :
    TradeWf scfg md (mkTrade sym scfg md i pos reason) := by
  refine ⟨?_, ?_, rfl, rfl, rfl⟩
  · exact Nat.lt_succ_of_le h.1
  · exact h.2

theorem exitFold_wf (sym : String) (ecfg : ExitCfg) (scfg : SimCfg) (md : MarketData)
    (i : ℕ) :
    ∀ (l : List Position) (acc : List Position × List Trade),
      (∀ p ∈ l, PosWf scfg md i p) →
      (∀ p ∈ acc.1, PosWf scfg md i p) →
      (∀ t ∈ acc.2, TradeWf scfg md t) →
      (∀ p ∈ (l.foldl (exitFoldStep sym ecfg scfg md i) acc).1, PosWf scfg md i p) ∧
      (∀ t ∈ (l.foldl (exitFoldStep sym ecfg scfg md i) acc).2, TradeWf scfg md t) := by
  intro l
  induction l with
  | nil => intro acc _ h2 h3; exact ⟨h2, h3⟩
  | cons hd tl ih =>
      intro acc hl hacc htr
      simp only [List.foldl_cons]
      have hhd : PosWf scfg md i hd := hl hd (List.mem_cons_self hd tl)
      apply ih
      · intro p hp; exact hl p (List.mem_cons_of_mem _ hp)
      · intro p hp
        unfold exitFoldStep at hp
        rcases hev : evalExit ecfg (md.trendFlip i) (md.atrAt i) i (md.closeAt i) hd
          with ⟨_ | r, p'⟩ <;> rw [hev] at hp
        · simp only [List.mem_append, List.mem_singleton] at hp
          rcases hp with hp | rfl
          · exact hacc p hp
          · have hpres := evalExit_snd_entry ecfg (md.trendFlip i) (md.atrAt i) i
              (md.closeAt i) hd
            rw [hev] at hpres
            exact ⟨hpres.1 ▸ hhd.1, hpres.1 ▸ hpres.2 ▸ hhd.2⟩
        · exact hacc p hp
      · intro t ht
        unfold exitFoldStep at ht
        rcases hev : evalExit ecfg (md.trendFlip i) (md.atrAt i) i (md.closeAt i) hd
          with ⟨_ | r, p'⟩ <;> rw [hev] at ht
        · exact htr t ht
        · simp only [List.mem_append, List.mem_singleton] at ht
          rcases ht with ht | rfl
          · exact htr t ht
          · exact mkTrade_wf sym scfg md i hd r hhd

theorem manageExits_wf (sym : String) (ecfg : ExitCfg) (scfg : SimCfg) (md : MarketData)
    (i : ℕ) (st : SimState)
    (h1 : ∀ p ∈ st.openPositions, PosWf scfg md i p)
    (h2 : ∀ t ∈ st.trades, TradeWf scfg md t) :
    (∀ p ∈ (manageExits sym ecfg scfg md i st).openPositions, PosWf scfg md i p) ∧
    (∀ t ∈ (manageExits sym ecfg scfg md i st).trades, TradeWf scfg md t) := by
  have hf := exitFold_wf sym ecfg scfg md i st.openPositions ([], []) h1 (by simp) (by simp)
  constructor
  · intro p hp; exact hf.1 p hp
  · intro t ht
    simp only [manageExits, List.mem_append] at ht
    rcases ht with ht | ht
    · exact h2 t ht
    · exact hf.2 t ht

theorem tryEntry_trades (scfg : SimCfg) (md : MarketData) (i : ℕ) (st : SimState) :
    (tryEntry scfg md i st).trades = st.trades := by
  unfold tryEntry; split_ifs <;> rfl

theorem tryEntry_wf (scfg : SimCfg) (md : MarketData) (i : ℕ) (st : SimState)
    (h1 : ∀ p ∈ st.openPositions, PosWf scfg md i p) :
    ∀ p ∈ (tryEntry scfg md i st).openPositions, PosWf scfg md (i + 1) p := by
  intro p hp
  unfold tryEntry at hp
  split_ifs at hp
  · simp only [List.mem_append, List.mem_singleton] at hp
    rcases hp with hp | rfl
    · exact PosWf_mono scfg md i (i + 1) p (Nat.le_succ i) (h1 p hp)
    · exact ⟨le_refl _, rfl⟩
  · exact PosWf_mono scfg md i (i + 1) p (Nat.le_succ i) (h1 p hp)

theorem stepBar_wf (sym : String) (ecfg : ExitCfg) (scfg : SimCfg) (md : MarketData)
    (i : ℕ) (st : SimState)
    (h1 : ∀ p ∈ st.openPositions, PosWf scfg md i p)
    (h2 : ∀ t ∈ st.trades, TradeWf scfg md t) :
    (∀ p ∈ (stepBar sym ecfg scfg md i st).openPositions, PosWf scfg md (i + 1) p) ∧
    (∀ t ∈ (stepBar sym ecfg scfg md i st).trades, TradeWf scfg md t) := by
  have hm := manageExits_wf sym ecfg scfg md i st h1 h2
  constructor
  · exact tryEntry_wf scfg md i _ hm.1
  · intro t ht
    rw [stepBar, tryEntry_trades] at ht
    exact hm.2 t ht

theorem runAux_wf (sym : String) (ecfg : ExitCfg) (scfg : SimCfg) (md : MarketData) :
    ∀ (fuel i : ℕ) (st : SimState),
      (∀ p ∈ st.openPositions, PosWf scfg md i p) →
      (∀ t ∈ st.trades, TradeWf scfg md t) →
      (∀ p ∈ (runAux sym ecfg scfg md fuel i st).openPositions, PosWf scfg md (i + fuel) p) ∧
      (∀ t ∈ (runAux sym ecfg scfg md fuel i st).trades, TradeWf scfg md t) := by
  intro fuel
  induction fuel with
  | zero => intro i st h1 h2; exact ⟨fun p hp => h1 p hp, h2⟩
  | succ f ih =>
      intro i st h1 h2
      have hs := stepBar_wf sym ecfg scfg md i st h1 h2
      have := ih (i + 1) (stepBar sym ecfg scfg md i st) hs.1 hs.2
      constructor
      · intro p hp
        have := this.1 p hp
        exact PosWf_mono scfg md (i + 1 + f) (i + (f + 1)) p (by omega) this
      · exact this.2

theorem runSingleSymbol_trades_wf (sym : String) (ecfg : ExitCfg) (scfg : SimCfg)
    (md : MarketData) :
    ∀ t ∈ (runSingleSymbol sym ecfg scfg md).trades, TradeWf scfg md t :=
  (runAux_wf sym ecfg scfg md (md.n - 2) 1 initState (by simp [initState])
    (by simp [initState])).2

/-! ## Claim theorems -/

/-- C1, counterexample: two instruments with identical 3-bar data each
enter a position, with `max_parallel = 1` (`≥ 1`), and after loop
iteration 1 the number of open positions summed over instruments is 2,
which exceeds `max_parallel`. -/
theorem c1_counterexample :
    1 ≤ scfgOne.max_parallel ∧
    totalOpenAfter [("A", mdHold), ("B", mdHold)] ecfgOff scfgOne 1 = 2 ∧
    ¬ totalOpenAfter [("A", mdHold), ("B", mdHold)] ecfgOff scfgOne 1 ≤
        scfgOne.max_parallel := by
  refine ⟨by decide, by decide, by decide⟩

/-- C1, amended: `run_backtest` simulates each instrument independently
with its own `max_parallel` cap, so the portfolio-wide bound that holds
at every point of the simulation is `(number of instruments) ×
max_parallel`, not `max_parallel` itself. -/
theorem c1_portfolio_cap_amended (univ : List (String × MarketData)) (ecfg : ExitCfg)
    (scfg : SimCfg) (t : ℕ) :
    totalOpenAfter univ ecfg scfg t ≤ univ.length * scfg.max_parallel := by
  unfold totalOpenAfter
  have h := List.sum_le_card_nsmul
    (univ.map fun p => (stateAfter p.1 ecfg scfg p.2 t).openPositions.length)
    scfg.max_parallel ?_
  · simpa [smul_eq_mul] using h
  · intro x hx
    rcases List.mem_map.mp hx with ⟨p, -, rfl⟩
    exact stateAfter_cap p.1 ecfg scfg p.2 t

/-- C2, counterexample: with the time exit (`K = 0`) and the trend-flip
exit both enabled and both conditions true at bar 2 for the position
entered at bar 2, the recorded exit reason is `TimeExit`; the claimed
precedence (structural trend flip first) would record `TrendFlip`. -/
theorem c2_counterexample :
    (runSingleSymbol "A" ecfgTimeTF scfgOne mdTimeTF).trades.map (fun t => t.exitReason)
      = [.TimeExit] ∧
    timeExitHit ecfgTimeTF ((2 : ℤ) - (2 : ℤ)) = true ∧
    trendFlipHit ecfgTimeTF (mdTimeTF.trendFlip 2) = true ∧
    ExitReason.TimeExit ≠ ExitReason.TrendFlip := by
  refine ⟨by decide, by decide, by decide, by decide⟩

/-- C2, amended: exit conditions are evaluated in the fixed order
percentage stoploss → time exit → trend flip → ATR trailing stop, and
the first condition that holds becomes the exit reason. -/
theorem c2_exit_precedence_amended (ecfg : ExitCfg) (tf : Bool) (atrOpt : Option ℚ) (i : ℕ)
    (close : ℚ) (pos : Position) :
    (evalExit ecfg tf atrOpt i close pos).1 =
      firstMatchingReason (stoplossHit ecfg pos.entryPrice close)
        (timeExitHit ecfg ((i : ℤ) - (pos.entryIdx : ℤ))) (trendFlipHit ecfg tf)
        (atrTrailHit ecfg atrOpt close pos) := by
  unfold evalExit firstMatchingReason atrTrailHit
  cases hsl : stoplossHit ecfg pos.entryPrice close <;>
    cases htm : timeExitHit ecfg ((i : ℤ) - (pos.entryIdx : ℤ)) <;>
      cases htf : trendFlipHit ecfg tf <;>
        cases hat : ecfg.atr_trailing <;>
          cases atrOpt <;>
            simp [hsl, htm, htf, hat] <;>
              split <;> simp_all

/-- C3, counterexample: with `max_parallel = 2` a single instrument
whose entry signal is always true holds 2 open positions after loop
iteration 2, and the second entry was admitted while the instrument was
not flat. -/
theorem c3_counterexample :
    (stateAfter "A" ecfgOff scfgTwo mdHold4 2).openPositions.length = 2 ∧
    ¬ (stateAfter "A" ecfgOff scfgTwo mdHold4 2).openPositions.length ≤ 1 := by
  refine ⟨by decide, by decide⟩

/-- C3, amended: the per-instrument bound enforced by the entry gate
`len(open_positions) < max_parallel` is `max_parallel`, not 1: at every
point of a single-instrument simulation the number of open positions is
at most `max_parallel` (so it is 0 or 1 exactly when
`max_parallel = 1`), and a new entry is admitted whenever the count is
below `max_parallel`, flat or not. -/
theorem c3_per_instrument_cap_amended (sym : String) (ecfg : ExitCfg) (scfg : SimCfg)
    (md : MarketData) (t : ℕ) :
    (stateAfter sym ecfg scfg md t).openPositions.length ≤ scfg.max_parallel :=
  stateAfter_cap sym ecfg scfg md t

/-- C4, counterexample: a position entered at 100 with highest close
100, ATR trailing enabled with multiple 3, stays open through two bars
with closes 100 and ATR values 1 then 2; the trail is 97 at the first
bar and 94 at the second — the trailing level decreased while the
position was open. -/
theorem c4_counterexample :
    evalExit ecfgAtr false (some 1) 2 100 posAtr = (none, posAtr) ∧
    evalExit ecfgAtr false (some 2) 3 100 posAtr = (none, posAtr) ∧
    trailAtBar ecfgAtr 100 1 posAtr = 97 ∧
    trailAtBar ecfgAtr 100 2 posAtr = 94 ∧
    ¬ (97 : ℚ) ≤ 94 := by
  refine ⟨?_, ?_, ?_, ?_, by norm_num⟩ <;>
    norm_num [evalExit, stoplossHit, timeExitHit, trendFlipHit, trailAtBar, trailLevel,
      ecfgAtr, posAtr]

/-- C4, amended: the trail recomputed each bar is
`max(HighestClose, Close) - atr_mult × ATR[t]` with no ratchet against
the previous trail; the highest-close anchor is non-decreasing while
the position stays open, and the trail itself is non-decreasing across
consecutive open bars provided the ATR value does not increase (it can
decrease when the ATR rises). -/
theorem c4_trail_amended (ecfg : ExitCfg) (tf : Bool) (i : ℕ) (close close' av av' : ℚ)
    (pos pos' : Position) (hat : ecfg.atr_trailing = true)
    (hopen : evalExit ecfg tf (some av) i close pos = (none, pos'))
    (hm : 0 ≤ ecfg.atr_mult) (hav : av' ≤ av) :
    pos.highestClose ≤ pos'.highestClose ∧
    trailAtBar ecfg close av pos ≤ trailAtBar ecfg close' av' pos' := by
  have hp : pos' = { pos with highestClose := max pos.highestClose close } :=
    evalExit_none_atr ecfg tf av i close pos pos' hat hopen
  subst hp
  constructor
  · exact le_max_left _ _
  · simp only [trailAtBar, trailLevel]
    have h1 : max pos.highestClose close ≤ max (max pos.highestClose close) close' :=
      le_max_left _ _
    have h2 : ecfg.atr_mult * av' ≤ ecfg.atr_mult * av :=
      mul_le_mul_of_nonneg_left hav hm
    linarith

/-- C4, witness for the amended theorem at a concrete open bar. -/
theorem c4_trail_amended_witness :
    posAtr.highestClose ≤ posAtr.highestClose ∧
    trailAtBar ecfgAtr 100 1 posAtr ≤ trailAtBar ecfgAtr 100 1 posAtr :=
  c4_trail_amended ecfgAtr false 2 100 100 1 1 posAtr posAtr (by decide)
    (by norm_num [evalExit, stoplossHit, timeExitHit, trendFlipHit, trailAtBar, trailLevel,
      ecfgAtr, posAtr])
    (by norm_num [ecfgAtr]) le_rfl

theorem runRun4_trades :
    (runSingleSymbol "A" ecfgTime scfgOne mdRun4).trades = [tradeRun4] := by
  norm_num [runSingleSymbol, runAux, stepBar, manageExits, tryEntry, exitFoldStep, evalExit,
    mkTrade, slip, stoplossHit, timeExitHit, trendFlipHit, initState, mdRun4, ecfgTime,
    scfgOne, tradeRun4, Trade.mk.injEq]

/-- C5: every trade produced by the engine entered (buy) at the raw
open of its entry bar times `1 + slippage_bps/10000`, exited (sell) at
the raw open of its exit bar times `1 - slippage_bps/10000`, carries a
cost of exactly `2 × brokerage_per_order`, and its net P&L is its gross
P&L minus that cost. -/
theorem c5_fill_prices_and_costs (sym : String) (ecfg : ExitCfg) (scfg : SimCfg)
    (md : MarketData) (t : Trade) (ht : t ∈ (runSingleSymbol sym ecfg scfg md).trades) :
    t.entryPrice = md.openAt t.entryIdx * (1 + scfg.slippage_bps / 10000) ∧
    t.exitPrice = md.openAt t.exitIdx * (1 - scfg.slippage_bps / 10000) ∧
    t.cost = 2 * scfg.brokerage_per_order ∧
    t.netPnL = t.grossPnL - t.cost := by
  obtain ⟨-, he, hx, hc, hn⟩ := runSingleSymbol_trades_wf sym ecfg scfg md t ht
  refine ⟨?_, ?_, ?_, hn⟩
  · rw [he]; unfold slip; ring
  · rw [hx]; unfold slip; ring
  · rw [hc]; ring

/-- C5, witness: the single trade of a concrete 4-bar run. -/
theorem c5_fill_prices_and_costs_witness :
    tradeRun4.entryPrice = mdRun4.openAt tradeRun4.entryIdx * (1 + scfgOne.slippage_bps / 10000) ∧
    tradeRun4.exitPrice = mdRun4.openAt tradeRun4.exitIdx * (1 - scfgOne.slippage_bps / 10000) ∧
    tradeRun4.cost = 2 * scfgOne.brokerage_per_order ∧
    tradeRun4.netPnL = tradeRun4.grossPnL - tradeRun4.cost :=
  c5_fill_prices_and_costs "A" ecfgTime scfgOne mdRun4 tradeRun4
    (by rw [runRun4_trades]; exact List.mem_singleton_self tradeRun4)

/-- C6: given non-negative slippage and non-negative raw open prices,
every trade's exit date strictly follows its entry date, its entry fill
is at least the raw open of the entry bar, and its exit fill is at most
the raw open of the exit bar. -/
theorem c6_trade_dates_and_fill_bounds (sym : String) (ecfg : ExitCfg) (scfg : SimCfg)
    (md : MarketData) (hs : 0 ≤ scfg.slippage_bps) (hp : ∀ j, 0 ≤ md.openAt j)
    (t : Trade) (ht : t ∈ (runSingleSymbol sym ecfg scfg md).trades) :
    t.entryIdx < t.exitIdx ∧
    md.openAt t.entryIdx ≤ t.entryPrice ∧
    t.exitPrice ≤ md.openAt t.exitIdx := by
  obtain ⟨hlt, he, hx, -, -⟩ := runSingleSymbol_trades_wf sym ecfg scfg md t ht
  have hbps : 0 ≤ scfg.slippage_bps / 10000 := by positivity
  have hse : 0 ≤ slip scfg (md.openAt t.entryIdx) := mul_nonneg (hp _) hbps
  have hsx : 0 ≤ slip scfg (md.openAt t.exitIdx) := mul_nonneg (hp _) hbps
  refine ⟨hlt, ?_, ?_⟩
  · rw [he]; linarith
  · rw [hx]; linarith

/-- C6, witness: the single trade of a concrete 4-bar run. -/
theorem c6_trade_dates_and_fill_bounds_witness :
    tradeRun4.entryIdx < tradeRun4.exitIdx ∧
    mdRun4.openAt tradeRun4.entryIdx ≤ tradeRun4.entryPrice ∧
    tradeRun4.exitPrice ≤ mdRun4.openAt tradeRun4.exitIdx :=
  c6_trade_dates_and_fill_bounds "A" ecfgTime scfgOne mdRun4 (by norm_num [scfgOne])
    (fun j => by norm_num [mdRun4]) tradeRun4
    (by rw [runRun4_trades]; exact List.mem_singleton_self tradeRun4)

/-- C7: the engine is a pure function of its inputs — running it twice
on identical price data and identical configurations yields identical
trade ledgers and identical equity series. -/
theorem c7_determinism (u1 u2 : List (String × MarketData)) (e1 e2 : ExitCfg)
    (s1 s2 : SimCfg) (cap1 cap2 : ℚ) (hu : u1 = u2) (he : e1 = e2) (hs : s1 = s2)
    (hc : cap1 = cap2) :
    run_backtest u1 e1 s1 = run_backtest u2 e2 s2 ∧
    equityCurve (run_backtest u1 e1 s1) cap1 = equityCurve (run_backtest u2 e2 s2) cap2 := by
  subst hu; subst he; subst hs; subst hc
  exact ⟨rfl, rfl⟩

/-- C7, witness at a concrete one-instrument universe. -/
theorem c7_determinism_witness :
    run_backtest [("A", mdHold)] ecfgOff scfgOne =
      run_backtest [("A", mdHold)] ecfgOff scfgOne ∧
    equityCurve (run_backtest [("A", mdHold)] ecfgOff scfgOne) 1000000 =
      equityCurve (run_backtest [("A", mdHold)] ecfgOff scfgOne) 1000000 :=
  c7_determinism [("A", mdHold)] [("A", mdHold)] ecfgOff ecfgOff scfgOne scfgOne
    1000000 1000000 rfl rfl rfl rfl

theorem stepBar_congr (sym : String) (ecfg : ExitCfg) (scfg : SimCfg)
    (md md' : MarketData) (i : ℕ)
    (hopen : md'.openAt (i + 1) = md.openAt (i + 1))
    (hclose : md'.closeAt i = md.closeAt i)
    (hsig : md'.entrySig i = md.entrySig i)
    (htf : md'.trendFlip i = md.trendFlip i)
    (hatr : md'.atrAt i = md.atrAt i)
    (st : SimState) :
    stepBar sym ecfg scfg md' i st = stepBar sym ecfg scfg md i st := by
  unfold stepBar manageExits tryEntry exitFoldStep mkTrade
  simp only [hopen, hclose, hsig, htf, hatr]

theorem runAux_congr_lastBar (sym : String) (ecfg : ExitCfg) (scfg : SimCfg)
    (md md' : MarketData)
    (hopen : ∀ j, md'.openAt j = md.openAt j)
    (hclose : ∀ j, j + 1 < md.n → md'.closeAt j = md.closeAt j)
    (hsig : ∀ j, j + 1 < md.n → md'.entrySig j = md.entrySig j)
    (htf : ∀ j, j + 1 < md.n → md'.trendFlip j = md.trendFlip j)
    (hatr : ∀ j, j + 1 < md.n → md'.atrAt j = md.atrAt j) :
    ∀ (fuel i : ℕ) (st : SimState), i + fuel < md.n →
      runAux sym ecfg scfg md' fuel i st = runAux sym ecfg scfg md fuel i st := by
  intro fuel
  induction fuel with
  | zero => intro i st _; rfl
  | succ f ih =>
      intro i st hb
      have hi : i + 1 < md.n := by omega
      simp only [runAux]
      rw [stepBar_congr sym ecfg scfg md md' i (hopen (i + 1)) (hclose i hi) (hsig i hi)
        (htf i hi) (hatr i hi) st]
      exact ih (i + 1) _ (by omega)

/-- C8: data at the last bar other than its open price — the entry
signal, the close, and the exit helper series — never influences the
run: the loop stops before the last date, so an entry signal true on
the last date opens nothing and produces no trade, and an exit
condition first true on the last bar never fills, leaving the final
open positions and the trade ledger exactly as if that signal were
absent. -/
theorem c8_last_bar_never_fills (sym : String) (ecfg : ExitCfg) (scfg : SimCfg)
    (md md' : MarketData) (hn : md'.n = md.n)
    (hopen : ∀ j, md'.openAt j = md.openAt j)
    (hclose : ∀ j, j + 1 < md.n → md'.closeAt j = md.closeAt j)
    (hsig : ∀ j, j + 1 < md.n → md'.entrySig j = md.entrySig j)
    (htf : ∀ j, j + 1 < md.n → md'.trendFlip j = md.trendFlip j)
    (hatr : ∀ j, j + 1 < md.n → md'.atrAt j = md.atrAt j) :
    runSingleSymbol sym ecfg scfg md' = runSingleSymbol sym ecfg scfg md := by
  unfold runSingleSymbol
  rw [hn]
  by_cases h3 : 3 ≤ md.n
  · exact runAux_congr_lastBar sym ecfg scfg md md' hopen hclose hsig htf hatr
      (md.n - 2) 1 initState (by omega)
  · have h0 : md.n - 2 = 0 := by omega
    rw [h0]
    rfl

/-- C8, witness: a 3-bar series whose only entry signal is on the last
bar runs exactly like the same series with no signal at all. -/
theorem c8_last_bar_never_fills_witness :
    runSingleSymbol "A" ecfgOff scfgOne mdLastSig =
      runSingleSymbol "A" ecfgOff scfgOne mdNoSig :=
  c8_last_bar_never_fills "A" ecfgOff scfgOne mdNoSig mdLastSig rfl (fun _ => rfl)
    (fun _ _ => rfl)
    (fun j hj => by
      have h2 : j < 2 := by simp only [mdNoSig] at hj; omega
      interval_cases j <;> rfl)
    (fun _ _ => rfl) (fun _ _ => rfl)

theorem runAux_congr_firstBar (sym : String) (ecfg : ExitCfg) (scfg : SimCfg)
    (md md' : MarketData)
    (hopen : ∀ j, md'.openAt j = md.openAt j)
    (hclose : ∀ j, 1 ≤ j → md'.closeAt j = md.closeAt j)
    (hsig : ∀ j, 1 ≤ j → md'.entrySig j = md.entrySig j)
    (htf : ∀ j, 1 ≤ j → md'.trendFlip j = md.trendFlip j)
    (hatr : ∀ j, 1 ≤ j → md'.atrAt j = md.atrAt j) :
    ∀ (fuel i : ℕ) (st : SimState), 1 ≤ i →
      runAux sym ecfg scfg md' fuel i st = runAux sym ecfg scfg md fuel i st := by
  intro fuel
  induction fuel with
  | zero => intro i st _; rfl
  | succ f ih =>
      intro i st hi
      simp only [runAux]
      rw [stepBar_congr sym ecfg scfg md md' i (hopen (i + 1)) (hclose i hi) (hsig i hi)
        (htf i hi) (hatr i hi) st]
      exact ih (i + 1) _ (by omega)

/-- C10 (implicit): the loop runs over bar positions `1 .. n-2`, so the
data of bar 0 — its entry signal in particular — never influences the
run, and a series with fewer than 3 bars runs zero iterations and
yields an empty trade ledger under every configuration. -/
theorem c10_loop_bounds (sym : String) (ecfg : ExitCfg) (scfg : SimCfg)
    (md md' : MarketData) (hn : md'.n = md.n)
    (hopen : ∀ j, md'.openAt j = md.openAt j)
    (hclose : ∀ j, 1 ≤ j → md'.closeAt j = md.closeAt j)
    (hsig : ∀ j, 1 ≤ j → md'.entrySig j = md.entrySig j)
    (htf : ∀ j, 1 ≤ j → md'.trendFlip j = md.trendFlip j)
    (hatr : ∀ j, 1 ≤ j → md'.atrAt j = md.atrAt j) :
    runSingleSymbol sym ecfg scfg md' = runSingleSymbol sym ecfg scfg md ∧
    (md.n < 3 → (runSingleSymbol sym ecfg scfg md).trades = []) := by
  constructor
  · unfold runSingleSymbol
    rw [hn]
    exact runAux_congr_firstBar sym ecfg scfg md md' hopen hclose hsig htf hatr
      (md.n - 2) 1 initState le_rfl
  · intro hsmall
    unfold runSingleSymbol
    have h0 : md.n - 2 = 0 := by omega
    rw [h0]
    rfl

/-- C10, witness: a 2-bar series with an entry signal on bar 0 runs
exactly like the same series with no signal, and yields no trades. -/
theorem c10_loop_bounds_witness :
    runSingleSymbol "A" ecfgOff scfgOne mdTwoBars =
      runSingleSymbol "A" ecfgOff scfgOne mdTwoBarsNoSig ∧
    (mdTwoBarsNoSig.n < 3 → (runSingleSymbol "A" ecfgOff scfgOne mdTwoBarsNoSig).trades = []) :=
  c10_loop_bounds "A" ecfgOff scfgOne mdTwoBarsNoSig mdTwoBars rfl (fun _ => rfl)
    (fun _ _ => rfl)
    (fun j hj => by
      have : j ≠ 0 := by omega
      simp [mdTwoBars, mdTwoBarsNoSig, this])
    (fun _ _ => rfl) (fun _ _ => rfl)

/-- C9, counterexample: for the one-trade ledger `[100]` the losing
trades sum to zero, yet the ProfitFactor value is the arbitrary finite
cap `999.0`, not an undefined/zero sentinel. -/
theorem c9_counterexample :
    grossLoss [(100 : ℚ)] = 0 ∧
    profitFactor [(100 : ℚ)] = 999 ∧
    (999 : ℚ) ≠ 0 := by
  refine ⟨?_, ?_, by norm_num⟩ <;>
    norm_num [profitFactor, grossProfit, grossLoss, List.filter]

/-- C9, amended: when the losing trades sum to zero the ProfitFactor
entry is the cap sentinel `999.0` if gross profit is positive and `0.0`
otherwise; the computation is a total function on the ledger (no
exception). -/
theorem c9_profit_factor_amended (pnls : List ℚ) (hl : grossLoss pnls = 0) :
    profitFactor pnls = if 0 < grossProfit pnls then 999 else 0 := by
  unfold profitFactor
  rw [hl]
  norm_num

/-- C9, witness for the amended theorem on the ledger `[100]`. -/
theorem c9_profit_factor_amended_witness :
    profitFactor [(100 : ℚ)] = if 0 < grossProfit [(100 : ℚ)] then 999 else 0 :=
  c9_profit_factor_amended [100] (by norm_num [grossLoss, List.filter])

end EodBacktest
